import Mathlib

/-!
Verification of the notion2memrise reconciliation core.

This file gives a shallow embedding of the reconciliation/diff engine of the
repository (src/handlers.py, src/utils.py, and the batching logic of
src/memrise.py) and proves, or refutes, the frozen specification claims
about it.

Modelling conventions:
* A pandas `DataFrame` is modelled as a list of column names plus a list of
  rows; a cell is `Option String`, `none` standing for a missing value
  (`NaN`).  Pandas treats `NaN` merge/isin keys as equal to each other,
  which matches `Option` equality.
* Selecting a list of columns `df[cols]` raises a `KeyError` in pandas when
  a requested column is absent; this is modelled with `Except`.
* `raise ValueError("word_df must be a pandas dataframe")` in
  `validate_input` is the error the specification calls `InvalidInputType`.
-/

namespace Notion2Memrise

/-- A single cell of a dataframe: `none` models pandas `NaN`. -/
abbrev Cell := Option String

/-- A pandas `DataFrame`: ordered column names and rows of cells.  A row is
positional; `cellAt` looks a value up through the column list. -/
structure DF where
  cols : List String
  rows : List (List Cell)
deriving DecidableEq, Repr

/-- Errors surfaced by the embedded pandas operations.  `invalidInputType`
is the `ValueError` raised by `validate_input` on a non-frame argument (the
spec's `InvalidInputType`); `keyError` is pandas' `KeyError` from selecting
absent columns. -/
inductive VError where
  | invalidInputType
  | keyError (missing : List String)
deriving DecidableEq, Repr

/-- Decidable equality for `Except` results, used to evaluate the embedded
fallible operations on concrete inputs. -/
instance exceptDecEq {ε α : Type} [DecidableEq ε] [DecidableEq α] :
    DecidableEq (Except ε α) := fun x y =>
  match x, y with
  | .error e, .error f =>
    if h : e = f then .isTrue (by rw [h])
    else .isFalse (by intro hc; cases hc; exact h rfl)
  | .error _, .ok _ => .isFalse (by intro hc; cases hc)
  | .ok _, .error _ => .isFalse (by intro hc; cases hc)
  | .ok a, .ok b =>
    if h : a = b then .isTrue (by rw [h])
    else .isFalse (by intro hc; cases hc; exact h rfl)

/-- Value of column `c` in `row`, given the frame's column list
(`row.getD (cols.indexOf c) none`): positional lookup, `none` when the
column is absent or the row is short. -/
def cellAt (cols : List String) (row : List Cell) (c : String) : Cell :=
  row.getD (cols.indexOf c) none

/-- `df[cols]`: select (and reorder) the given columns, raising `KeyError`
when any requested column is missing — source: `word_df[COL_LIST]` in
`validate_input` (src/memrise.py line 147). -/
def selectCols (df : DF) (cols : List String) : Except VError DF :=
  if cols.all (fun c => df.cols.contains c) then
    .ok { cols := cols, rows := df.rows.map (fun r => cols.map (fun c => cellAt df.cols r c)) }
  else
    .error (.keyError (cols.filter (fun c => !(df.cols.contains c))))

/-- `df.dropna(subset)`: keep only the rows whose cells in every `subset`
column are present — source: `.dropna(subset=NOT_NULL_COL_LIST)`
(src/memrise.py line 147). -/
def dropna (df : DF) (subset : List String) : DF :=
  { df with rows := df.rows.filter (fun r => subset.all (fun c => (cellAt df.cols r c).isSome)) }

/-- `COL_LIST` from src/constants.py lines 8-20: the canonical ordered field
list. -/
def COL_LIST : List String :=
  ["French", "English", "Définition", "Example", "Example Translation",
   "cell id", "Part of Speech", "Gender", "Tags", "Model", "date modified"]

/-- `NOT_NULL_COL_LIST` from src/constants.py line 22. -/
def NOT_NULL_COL_LIST : List String := ["French", "English", "date modified", "cell id"]

/-- `COL_ORDER_LIST` from src/handlers.py line 10: the result-ledger column
order. -/
def COL_ORDER_LIST : List String := ["French", "cell id", "action", "success", "error"]

/-- The possible arguments of `validate_input`: a pandas `Series` (a single
record, with its index as field names), a `DataFrame`, or any other Python
value. -/
inductive PdInput where
  | series (idx : List String) (vals : List Cell)
  | frame (df : DF)
  | other (desc : String)
deriving DecidableEq, Repr

/-- `validate_input` (src/memrise.py lines 124-149): a `Series` is promoted
via `to_frame().T` to a one-row frame; a non-frame raises `ValueError`;
otherwise `word_df[COL_LIST].dropna(subset=NOT_NULL_COL_LIST)`. -/
def validate_input : PdInput → Except VError DF
  | .series idx vals =>
      match selectCols { cols := idx, rows := [vals] } COL_LIST with
      | .error e => .error e
      | .ok u => .ok (dropna u NOT_NULL_COL_LIST)
  | .frame df =>
      match selectCols df COL_LIST with
      | .error e => .error e
      | .ok u => .ok (dropna u NOT_NULL_COL_LIST)
  | .other _ => .error .invalidInputType

/-- Pandas `Series.duplicated(keep="last")` semantics on a list of keys:
entry `i` is marked `true` exactly when the same key occurs again later
(all occurrences but the last are duplicates). -/
def dupKeepLast [BEq α] : List α → List Bool
  | [] => []
  | a :: as => as.contains a :: dupKeepLast as

/-- Boolean-mask row selection `df[mask]`. -/
def maskFilter : List α → List Bool → List α
  | [], _ => []
  | _, [] => []
  | a :: as, b :: bs => if b then a :: maskFilter as bs else maskFilter as bs

/-- Column list of `duplicate_res_df` right before the final
`duplicate_res_df[COL_ORDER_LIST]` selection in `handle_notion_duplicates`
(src/handlers.py lines 108-109): the `French` and `cell id` columns of the
duplicate rows plus the freshly assigned `action` and `success` columns.
Note that no `error` column is ever created. -/
def dupLedgerCols : List String := ["French", "cell id", "action", "success"]

/-- Lower-casing of a string, mapped over its character list (the same
function `String.toLower` applies per character, phrased structurally). -/
def strLower (s : String) : String :=
  ⟨s.data.map Char.toLower⟩

/-- Lower-cased `French` key of every row of a validated frame — source:
`notion_df_copy["French"] = notion_df_copy["French"].str.lower()`
(src/handlers.py line 96); `NaN` stays `NaN` under `.str.lower()`. -/
def frenchLowerKeys (v : DF) : List Cell :=
  v.rows.map (fun r => (cellAt v.cols r "French").map strLower)

/-- Rows of the validated frame marked as earlier case-insensitive
duplicates (`duplicated(subset=["French"], keep="last")`,
src/handlers.py lines 97-98). -/
def dupDroppedRows (v : DF) : List (List Cell) :=
  maskFilter v.rows (dupKeepLast (frenchLowerKeys v))

/-- `cell id` values of the dropped duplicate rows. -/
def dupDroppedIds (v : DF) : List Cell :=
  (dupDroppedRows v).map (fun r => cellAt v.cols r "cell id")

/-- The kept rows: rows of the validated frame whose `cell id` is not among
the dropped ids (`notion_df["cell id"].isin(...)` negated, src/handlers.py
lines 99-100). -/
def dupKeptRows (v : DF) : List (List Cell) :=
  v.rows.filter (fun r => !((dupDroppedIds v).contains (cellAt v.cols r "cell id")))

/-- Core of `handle_notion_duplicates` after input validation
(src/handlers.py lines 95-111).  When duplicates exist the source builds
`duplicate_res_df` with columns `[French, cell id, action, success]` and
then evaluates `duplicate_res_df[COL_ORDER_LIST]`; since `error` is not a
column of that frame, this selection raises `KeyError`. -/
def handleDupCore (v : DF) : Except VError (DF × DF) :=
  let dropped := dupDroppedRows v
  let kept : DF := ⟨v.cols, dupKeptRows v⟩
  if dropped.isEmpty then
    .ok (kept, ⟨COL_ORDER_LIST, []⟩)
  else
    let droppedFrench := maskFilter (frenchLowerKeys v) (dupKeepLast (frenchLowerKeys v))
    let resDF : DF :=
      ⟨dupLedgerCols,
        (droppedFrench.zip (dupDroppedIds v)).map
          (fun p => [p.1, p.2, some "duplicate_drop", some "True"])⟩
    match selectCols resDF COL_ORDER_LIST with
    | .error e => .error e
    | .ok ledger => .ok (kept, ledger)

/-- `handle_notion_duplicates` (src/handlers.py lines 75-111): validate the
input, drop earlier case-insensitive duplicates of the `French` column, and
return the kept frame together with the dropped-records ledger. -/
def handle_notion_duplicates (notion : DF) : Except VError (DF × DF) :=
  match validate_input (.frame notion) with
  | .error e => .error e
  | .ok v => handleDupCore v

/-- `drop_duplicates` (keep first occurrence) on a list of key tuples —
source: `df2[on].drop_duplicates()` in `semi_join` (src/utils.py line 23). -/
def dedupKeepFirstAux [DecidableEq α] (seen : List α) : List α → List α
  | [] => []
  | a :: as => if a ∈ seen then dedupKeepFirstAux seen as else a :: dedupKeepFirstAux (a :: seen) as

/-- Entry point of `dedupKeepFirstAux` with nothing seen yet. -/
def dedupKeepFirst [DecidableEq α] (l : List α) : List α :=
  dedupKeepFirstAux [] l

/-- Key tuple of a row under the given key columns. -/
def keyTuple (cols : List String) (keys : List String) (row : List Cell) : List Cell :=
  keys.map (fun c => cellAt cols row c)

/-- Whether a row of `A` has a key-tuple match among the rows of `B`. -/
def hasKeyMatch (A B : DF) (keys : List String) (ra : List Cell) : Bool :=
  B.rows.any (fun rb => keyTuple B.cols keys rb == keyTuple A.cols keys ra)

/-- `semi_join(df1, df2, on)` (src/utils.py lines 7-26): inner-merge `df1`
with the deduplicated key columns of `df2`.  The merge keeps the left row
order and emits one output row per matching pair; since the right side is
deduplicated and only holds the key columns, the output consists of the
rows of `df1` whose key tuple occurs in `df2`, each at most once. -/
def semi_join (A B : DF) (keys : List String) : DF :=
  let bKeys := dedupKeepFirst (B.rows.map (fun rb => keyTuple B.cols keys rb))
  { cols := A.cols,
    rows := A.rows.flatMap (fun ra =>
      (bKeys.filter (fun kb => kb == keyTuple A.cols keys ra)).map (fun _ => ra)) }

/-- `anti_join(df1, df2, on)` (src/utils.py lines 29-53): left-merge with
indicator, keep the `left_only` rows, drop the `_y` copies of the shared
non-key columns and rename the `_x` copies back.  The result keeps `df1`'s
columns followed by the columns of `df2` that are neither keys nor columns
of `df1` (those cells are `NaN` on `left_only` rows). -/
def anti_join (A B : DF) (keys : List String) : DF :=
  let bOnly := B.cols.filter (fun c => !(keys.contains c) && !(A.cols.contains c))
  { cols := A.cols ++ bOnly,
    rows := (A.rows.filter (fun ra => !(hasKeyMatch A B keys ra))).map
      (fun ra => ra ++ bOnly.map (fun _ => (none : Cell))) }

/-- `LEVEL_WORD_LIMIT` from src/constants.py line 25: the per-level word
capacity. -/
def LEVEL_WORD_LIMIT : Nat := 20

/-- Outcome of a batch-allocation run: for each pre-existing level (in the
course's level order) the records added to it, plus the record batches put
into freshly created levels. -/
structure AllocResult (α : Type) where
  existingFills : List (List α)
  newGroups : List (List α)
deriving DecidableEq, Repr

/-- The `for i in range(0, len(word_df), LEVEL_WORD_LIMIT)` chunking that
creates one new level per capacity-sized slice (src/memrise.py lines
777-794). -/
def chunksAux (cap : Nat) : Nat → List α → List (List α)
  | 0, _ => []
  | _, [] => []
  | fuel + 1, a :: as => (a :: as).take cap :: chunksAux cap fuel ((a :: as).drop cap)

/-- Entry point of the chunking loop; the list's length bounds the number
of created levels since each slice consumes at least one record (the
source loop is vacuous for an empty remainder, and a zero capacity would
make Python's `range` step invalid, so it yields no chunks here). -/
def chunks (cap : Nat) (l : List α) : List (List α) :=
  if cap = 0 then [] else chunksAux cap l.length l

/-- First phase of `add_words` (src/memrise.py lines 748-763): walk the
existing levels in order; a level whose word count is zero and such that
pending words remain (`i < len(word_df)`) receives `word_df.iloc[i:i+cap]`
and `i` advances by `cap`.  Returns the per-level fills, the final value of
`i`, and the word count of the last level after this phase
(`level_word_count` in the source; `0` when there are no levels). -/
def fillEmptyLevels (cap : Nat) (pending : List α) :
    List Nat → Nat → List (List α) × Nat × Nat
  | [], i => ([], i, 0)
  | occ :: rest, i =>
    let doFill := occ == 0 && decide (i < pending.length)
    let fill := if doFill then (pending.drop i).take cap else []
    let count := occ + fill.length
    let i2 := if doFill then i + cap else i
    match rest with
    | [] => ([fill], i2, count)
    | r :: rs =>
      let res := fillEmptyLevels cap pending (r :: rs) i2
      (fill :: res.1, res.2)

/-- Allocation loop of `add_words` (src/memrise.py lines 746-794), reached
only once the collapsed-level wait has produced at least one level: after
the empty-level phase the last level is topped up to the capacity when it
is below it and pending words remain (lines 767-773), and the rest is
chunked into new levels (lines 775-794). -/
def addWordsAlloc (cap : Nat) (occs : List Nat) (pending : List α) : AllocResult α :=
  let r := fillEmptyLevels cap pending occs 0
  let fills := r.1
  let i1 := r.2.1
  let lastCount := r.2.2
  if occs.isEmpty then
    { existingFills := fills, newGroups := chunks cap (pending.drop i1) }
  else if lastCount < cap && decide (i1 < pending.length) then
    let n := cap - lastCount
    { existingFills := fills.dropLast ++ [fills.getLastD [] ++ (pending.drop i1).take n],
      newGroups := chunks cap (pending.drop (i1 + n)) }
  else
    { existingFills := fills, newGroups := chunks cap (pending.drop i1) }

/-- The uncaught error raised by the `WebDriverWait` on
`//div[@class='level collapsed']` at the start of `add_words`
(src/memrise.py lines 739-741): with zero levels in the course the wait
times out and the exception propagates, so nothing is allocated or
created. -/
def levelWaitTimeout : String := "TimeoutException"

/-- `add_words` (src/memrise.py lines 709-796), with the mutation
collaborator modelled as succeeding on every record, restricted to its
allocation decisions (which pending record goes to which level).  An empty
(validated) input returns the empty result before touching the page
(lines 726-733); otherwise the wait for the course's collapsed levels
raises `TimeoutException` when the course has no levels (lines 739-741)
and the allocation loop runs only when at least one level exists. -/
def add_words (cap : Nat) (occs : List Nat) (pending : List α) :
    Except String (AllocResult α) :=
  if pending.isEmpty then .ok { existingFills := [], newGroups := [] }
  else if occs.isEmpty then .error levelWaitTimeout
  else .ok (addWordsAlloc cap occs pending)

/-- Modelled from the spec (§4.5, claim C2 wording): the allocator the
claim describes — every existing level with occupancy below the capacity
is filled, in level order, from the front of the pending list up to its
remaining capacity; only what is left afterwards goes into new
capacity-sized levels.  Used solely to compare the claim against
`add_words`. -/
def specFill (cap : Nat) : List Nat → List α → List (List α) × List α
  | [], rem => ([], rem)
  | occ :: rest, rem =>
    let fill := rem.take (cap - occ)
    let r := specFill cap rest (rem.drop (cap - occ))
    (fill :: r.1, r.2)

/-- Modelled from the spec (§4.5, claim C2 wording): entry point of the
claimed fill-every-under-capacity-group policy. -/
def allocate_spec (cap : Nat) (occs : List Nat) (pending : List α) : AllocResult α :=
  let r := specFill cap occs pending
  { existingFills := r.1, newGroups := chunks cap r.2 }

/-- The policy `add_words` actually implements, phrased over the remaining
pending list instead of the moving index `i`: only empty levels are filled
(a capacity-sized slice each, in level order), then the last level is
topped up when below capacity, and the remainder is chunked into new
levels. -/
def fillEmptyLevelsR (cap : Nat) : List Nat → List α → List (List α) × List α × Nat
  | [], rem => ([], rem, 0)
  | occ :: rest, rem =>
    let doFill := occ == 0 && !rem.isEmpty
    let fill := if doFill then rem.take cap else []
    let count := occ + fill.length
    let rem2 := if doFill then rem.drop cap else rem
    match rest with
    | [] => ([fill], rem2, count)
    | r :: rs =>
      let res := fillEmptyLevelsR cap (r :: rs) rem2
      (fill :: res.1, res.2)

/-- The amended allocation policy as a standalone definition (see
`fillEmptyLevelsR`). -/
def allocate_amended (cap : Nat) (occs : List Nat) (pending : List α) : AllocResult α :=
  let r := fillEmptyLevelsR cap occs pending
  let fills := r.1
  let rem := r.2.1
  let lastCount := r.2.2
  if occs.isEmpty then
    { existingFills := fills, newGroups := chunks cap rem }
  else if lastCount < cap && !rem.isEmpty then
    let n := cap - lastCount
    { existingFills := fills.dropLast ++ [fills.getLastD [] ++ rem.take n],
      newGroups := chunks cap (rem.drop n) }
  else
    { existingFills := fills, newGroups := chunks cap rem }

/-- A word record as seen by the classification steps of `notion2memrise`:
only the fields those steps inspect (`French`, `cell id`,
`date modified`). Timestamps are modelled as naturals. -/
structure Rec where
  french : String
  cellId : String
  dateModified : Nat
deriving DecidableEq, Repr

/-- The target snapshot's maximum `date modified` timestamp: the source
sorts `memrise_df` descending by `date modified` and reads the first row
(src/handlers.py lines 46-48), i.e. the maximum of the column (`0` on an
empty snapshot, which the source guards against). -/
def memriseMostRecent (memrise : List Rec) : Nat :=
  (memrise.map Rec.dateModified).foldl max 0

/-- Classification steps of `notion2memrise` for a non-empty target
snapshot (src/handlers.py lines 55-64): restrict the (deduplicated) source
to records with `date modified > memrise_most_recent`; records of that
candidate set whose `cell id` occurs on the target are the updates
(`semi_join` on `cell id`); the remaining candidates are the additions
(`isin` exclusion).  Returns `(updated, added)`. -/
def classifySync (notion memrise : List Rec) : List Rec × List Rec :=
  let tmax := memriseMostRecent memrise
  let candidates := notion.filter (fun r => decide (tmax < r.dateModified))
  let updated := candidates.filter (fun r => memrise.any (fun m => m.cellId == r.cellId))
  let added := candidates.filter (fun r => !(updated.any (fun u => u.cellId == r.cellId)))
  (updated, added)

/-- Inputs of one `notion2memrise` run at the level of its control flow
(src/handlers.py lines 28-71): whether the validated source is empty, and
the outcome of each phase — a list of ledger rows on success, or the text
of an uncaught (fatal) exception. `fetch` yields whether the target
snapshot is non-empty. -/
structure RunInputs where
  sourceEmpty : Bool
  dedup : Except String (List String)
  fetch : Except String Bool
  deletePhase : Except String (List String)
  updatePhase : Except String (List String)
  addPhase : Except String (List String)
deriving Repr

/-- Control flow of `notion2memrise` (src/handlers.py lines 28-71).  The
function body is straight-line code with no `try`/`finally`: an uncaught
exception in any phase propagates immediately, and the single
`global_res_df.to_csv(...)` call (line 70) runs only after every phase
returned.  The result is the run outcome together with the list of ledger
files written (each file given by its rows). -/
def notion2memriseRun (inp : RunInputs) : Except String Unit × List (List String) :=
  if inp.sourceEmpty then (.ok (), [])
  else
    match inp.dedup with
    | .error e => (.error e, [])
    | .ok l1 =>
      match inp.fetch with
      | .error e => (.error e, [])
      | .ok targetNonEmpty =>
        if targetNonEmpty then
          match inp.deletePhase with
          | .error e => (.error e, [])
          | .ok l2 =>
            match inp.updatePhase with
            | .error e => (.error e, [])
            | .ok l3 =>
              match inp.addPhase with
              | .error e => (.error e, [])
              | .ok l4 => (.ok (), [l1 ++ l2 ++ l3 ++ l4])
        else
          match inp.addPhase with
          | .error e => (.error e, [])
          | .ok l4 => (.ok (), [l1 ++ l4])

/-! ## Theorems -/

/-- C7: with the configured capacity of 20 words per level, one
pre-existing level holding 5 words, and 30 pending records, `add_words`
tops the existing level up to 20 by consuming the first 15 pending records
and creates exactly one new level holding the remaining 15. -/
theorem allocator_scenario_20_5_30 :
    add_words LEVEL_WORD_LIMIT [5] (List.range 30) =
      .ok { existingFills := [(List.range 30).take 15],
            newGroups := [(List.range 30).drop 15] } ∧
    5 + ((List.range 30).take 15).length = LEVEL_WORD_LIMIT ∧
    ((List.range 30).drop 15).length = 15 := by
  decide

/-- C2 counterexample: with capacity 20 and existing levels of occupancy 5
and 20, a single pending record is routed to a brand-new level by
`add_words`, although the first existing level is below capacity — the
claimed fill-every-under-capacity-group policy (`allocate_spec`) would
have put it there. -/
theorem allocator_fills_under_capacity_cex :
    add_words LEVEL_WORD_LIMIT [5, 20] [(0 : Nat)] ≠
      .ok (allocate_spec LEVEL_WORD_LIMIT [5, 20] [(0 : Nat)]) ∧
    add_words LEVEL_WORD_LIMIT [5, 20] [(0 : Nat)] =
      .ok { existingFills := [[], []], newGroups := [[0]] } ∧
    (allocate_spec LEVEL_WORD_LIMIT [5, 20] [(0 : Nat)]).existingFills = [[0], []] := by
  decide

/-- C3: evaluating `handle_notion_duplicates` at an input that actually
contains a case-insensitive duplicate ("chat"/"Chat") shows the bug: the
ledger frame is built with columns `[French, cell id, action, success]`
only, so the final `duplicate_res_df[COL_ORDER_LIST]` selection raises
`KeyError` on the absent `error` column instead of returning the
documented duplicate-drop ledger. -/
theorem duplicate_ledger_shape_bug :
    handle_notion_duplicates
      ⟨COL_LIST,
        [[some "chat", some "cat", none, none, none, some "id1", none, none, none, none,
          some "2023-01-01"],
         [some "Chat", some "cat", none, none, none, some "id2", none, none, none, none,
          some "2023-01-02"]]⟩ = .error (.keyError ["error"]) := by
  decide

/-- C6: on the two-record scenario (same primary term up to case, modified
at t1 < t2, presented oldest-first) the intermediate computations of
`handle_notion_duplicates` do select the later record as kept and the
earlier record's cell id as dropped — but the function then crashes with
`KeyError` on the absent `error` ledger column instead of returning that
result. -/
theorem dedup_keep_last_scenario_bug :
    dupDroppedIds
        ⟨COL_LIST,
          [[some "chat", some "cat", none, none, none, some "id1", none, none, none, none,
            some "2024-05-01"],
           [some "Chat", some "cat", none, none, none, some "id2", none, none, none, none,
            some "2024-05-02"]]⟩ = [some "id1"] ∧
    dupKeptRows
        ⟨COL_LIST,
          [[some "chat", some "cat", none, none, none, some "id1", none, none, none, none,
            some "2024-05-01"],
           [some "Chat", some "cat", none, none, none, some "id2", none, none, none, none,
            some "2024-05-02"]]⟩ =
      [[some "Chat", some "cat", none, none, none, some "id2", none, none, none, none,
        some "2024-05-02"]] ∧
    handle_notion_duplicates
        ⟨COL_LIST,
          [[some "chat", some "cat", none, none, none, some "id1", none, none, none, none,
            some "2024-05-01"],
           [some "Chat", some "cat", none, none, none, some "id2", none, none, none, none,
            some "2024-05-02"]]⟩ = .error (.keyError ["error"]) := by decide

/-- C1: in a run with a non-empty target snapshot, a source record whose
`date modified` is not greater than the target's maximum timestamp and
whose `cell id` exists on the target is classified neither as an update
nor as an addition — it is filtered out of the candidate set before either
classification. -/
theorem stale_records_are_noops (notion memrise : List Rec) (r : Rec)
    (hne : memrise ≠ []) (hmem : r ∈ notion)
    (hstale : r.dateModified ≤ memriseMostRecent memrise)
    (hpresent : ∃ m ∈ memrise, m.cellId = r.cellId) :
    r ∉ (classifySync notion memrise).1 ∧ r ∉ (classifySync notion memrise).2 := by
  constructor
  · intro hin
    simp only [classifySync] at hin
    have h1 := List.mem_filter.mp hin
    have h2 := List.mem_filter.mp h1.1
    have h3 := of_decide_eq_true h2.2
    omega
  · intro hin
    simp only [classifySync] at hin
    have h1 := List.mem_filter.mp hin
    have h2 := List.mem_filter.mp h1.1
    have h3 := of_decide_eq_true h2.2
    omega

/-- C1 witness: the record `("a", "x", 3)` is stale (target maximum is 5)
and present on the target, and indeed lands in neither output. -/
theorem stale_records_are_noops_witness :
    (⟨"a", "x", 3⟩ : Rec) ∉ (classifySync [⟨"a", "x", 3⟩] [⟨"b", "x", 5⟩]).1 ∧
    (⟨"a", "x", 3⟩ : Rec) ∉ (classifySync [⟨"a", "x", 3⟩] [⟨"b", "x", 5⟩]).2 :=
  stale_records_are_noops [⟨"a", "x", 3⟩] [⟨"b", "x", 5⟩] ⟨"a", "x", 3⟩
    (by decide) (by decide) (by decide) ⟨⟨"b", "x", 5⟩, by decide, rfl⟩

/-- `selectCols` never raises the `InvalidInputType` error — its only
failure is `KeyError`. -/
theorem selectCols_not_invalid (df : DF) (cs : List String) :
    selectCols df cs ≠ .error .invalidInputType := by
  unfold selectCols
  split <;> simp

/-- C8: `validate_input` fails with `InvalidInputType` exactly when its
argument is neither a single record (`Series`) nor a collection of records
(`DataFrame`); a single record is promoted to a one-row frame and
validated like a frame. -/
theorem validator_invalid_input_type :
    (∀ x : PdInput,
      validate_input x = .error .invalidInputType ↔ ∃ s, x = PdInput.other s) ∧
    (∀ idx vals, validate_input (.series idx vals) =
      validate_input (.frame ⟨idx, [vals]⟩)) := by
  constructor
  · intro x
    cases x with
    | series idx vals =>
      simp only [validate_input]
      constructor
      · intro h
        cases hsel : selectCols ⟨idx, [vals]⟩ COL_LIST with
        | error e =>
          rw [hsel] at h
          simp only [Except.error.injEq] at h
          exact absurd (h ▸ hsel) (selectCols_not_invalid _ _)
        | ok u => rw [hsel] at h; cases h
      · rintro ⟨s, hs⟩; cases hs
    | frame df =>
      simp only [validate_input]
      constructor
      · intro h
        cases hsel : selectCols df COL_LIST with
        | error e =>
          rw [hsel] at h
          simp only [Except.error.injEq] at h
          exact absurd (h ▸ hsel) (selectCols_not_invalid _ _)
        | ok u => rw [hsel] at h; cases h
      · rintro ⟨s, hs⟩; cases hs
    | other desc =>
      exact ⟨fun _ => ⟨desc, rfl⟩, fun _ => rfl⟩
  · intro idx vals
    rfl

/-- C10: a frame missing any canonical column makes `validate_input` raise
`KeyError` (it never fills the column in); and a record whose optional
`Gender` column is present but empty is retained by validation with the
field still empty. -/
theorem validator_missing_column_raises :
    (∀ df : DF, (∃ c, c ∈ COL_LIST ∧ c ∉ df.cols) →
      ∃ missing, validate_input (.frame df) = .error (.keyError missing) ∧ missing ≠ []) ∧
    validate_input (.frame ⟨COL_LIST,
        [[some "chat", some "cat", none, none, none, some "id1", none, none, some "tag",
          none, some "2024-01-02"]]⟩) =
      .ok ⟨COL_LIST,
        [[some "chat", some "cat", none, none, none, some "id1", none, none, some "tag",
          none, some "2024-01-02"]]⟩ := by
  constructor
  · rintro df ⟨c, hc, hnc⟩
    have hnc' : df.cols.contains c = false := by
      cases hb : df.cols.contains c with
      | false => rfl
      | true => exact absurd (List.mem_of_elem_eq_true hb) hnc
    have hcond : (COL_LIST.all fun c0 => df.cols.contains c0) = false := by
      cases hb : (COL_LIST.all fun c0 => df.cols.contains c0) with
      | false => rfl
      | true =>
        have := List.all_eq_true.mp hb c hc
        rw [hnc'] at this
        cases this
    refine ⟨COL_LIST.filter (fun c0 => !(df.cols.contains c0)), ?_, ?_⟩
    · simp only [validate_input, selectCols, hcond]
      rfl
    · intro hnil
      have hmemf : c ∈ COL_LIST.filter (fun c0 => !(df.cols.contains c0)) :=
        List.mem_filter.mpr ⟨hc, by rw [hnc']; rfl⟩
      rw [hnil] at hmemf
      cases hmemf
  · decide

/-- C10 witness: a one-column frame (only `French`) is rejected with a
non-empty `KeyError` list. -/
theorem validator_missing_column_raises_witness :
    ∃ missing, validate_input (.frame ⟨["French"], [[some "x"]]⟩) =
      .error (.keyError missing) ∧ missing ≠ [] :=
  validator_missing_column_raises.1 ⟨["French"], [[some "x"]]⟩
    ⟨"English", by decide, by decide⟩

/-- C9 counterexample: a run whose duplicate phase accumulated a ledger row
and whose delete phase then died with an uncaught `TimeoutException`
persists nothing — `to_csv` is only reached at the end of a fully
successful run, so the accumulated ledger row is lost. -/
theorem ledger_persist_on_abort_cex :
    (notion2memriseRun ⟨false, .ok ["chat;id1;duplicate_drop;True;"], .ok true,
        .error "TimeoutException", .ok [], .ok []⟩).1 = .error "TimeoutException" ∧
    (notion2memriseRun ⟨false, .ok ["chat;id1;duplicate_drop;True;"], .ok true,
        .error "TimeoutException", .ok [], .ok []⟩).2 = [] :=
  ⟨rfl, rfl⟩

/-- C9 amended: whenever a fatal error aborts the run, no ledger file at
all is written; persistence happens only on runs that complete every
phase. -/
theorem ledger_persist_amended (inp : RunInputs) (e : String)
    (h : (notion2memriseRun inp).1 = .error e) :
    (notion2memriseRun inp).2 = [] := by
  rcases inp with ⟨se, d, f, del, up, ad⟩
  cases se with
  | true => simp [notion2memriseRun] at h
  | false =>
    cases d with
    | error _ => rfl
    | ok l1 =>
      cases f with
      | error _ => rfl
      | ok b =>
        cases b with
        | false =>
          cases ad with
          | error _ => rfl
          | ok _ => simp [notion2memriseRun] at h
        | true =>
          cases del with
          | error _ => rfl
          | ok _ =>
            cases up with
            | error _ => rfl
            | ok _ =>
              cases ad with
              | error _ => rfl
              | ok _ => simp [notion2memriseRun] at h

/-- C9 amended witness: a run whose source fetch of the target snapshot
fails writes no ledger file. -/
theorem ledger_persist_amended_witness :
    (notion2memriseRun ⟨false, .ok ["row"], .error "ConnectionError",
        .ok [], .ok [], .ok []⟩).2 = [] :=
  ledger_persist_amended _ "ConnectionError" rfl

/-- The `i < len(word_df)` guard of the source and the emptiness of the
remaining pending list agree. -/
theorem drop_isEmpty_decide (pending : List α) (i : Nat) :
    (pending.drop i).isEmpty = !(decide (i < pending.length)) := by
  by_cases h : pending.length ≤ i
  · have hnil : pending.drop i = [] := List.drop_eq_nil_iff.mpr h
    simp [hnil, Nat.not_lt.mpr h]
  · have hlt : i < pending.length := Nat.lt_of_not_le h
    have hne : pending.drop i ≠ [] := fun hc => h (List.drop_eq_nil_iff.mp hc)
    simp [hlt, List.isEmpty_iff, hne]

/-- The index-based empty-level pass of `add_words` agrees with its
remaining-list phrasing: same fills, the final index points at the same
remaining suffix, and the last level's word count agrees. -/
theorem fillEmptyLevels_eq_R (cap : Nat) (pending : List α) (occs : List Nat) (i : Nat) :
    (fillEmptyLevels cap pending occs i).1 =
      (fillEmptyLevelsR cap occs (pending.drop i)).1 ∧
    pending.drop (fillEmptyLevels cap pending occs i).2.1 =
      (fillEmptyLevelsR cap occs (pending.drop i)).2.1 ∧
    (fillEmptyLevels cap pending occs i).2.2 =
      (fillEmptyLevelsR cap occs (pending.drop i)).2.2 := by
  induction occs generalizing i with
  | nil => exact ⟨rfl, rfl, rfl⟩
  | cons occ rest ih =>
    have hguard : (occ == 0 && !(pending.drop i).isEmpty)
        = (occ == 0 && decide (i < pending.length)) := by
      rw [drop_isEmpty_decide, Bool.not_not]
    cases rest with
    | nil =>
      simp only [fillEmptyLevels, fillEmptyLevelsR, hguard]
      cases hG : (occ == 0 && decide (i < pending.length)) with
      | false => simp
      | true => simp [List.drop_drop]
    | cons r rs =>
      simp only [fillEmptyLevels, fillEmptyLevelsR, hguard]
      cases hG : (occ == 0 && decide (i < pending.length)) with
      | false =>
        have h := ih i
        simp only [if_neg, Bool.false_eq_true, ite_false]
        exact ⟨by rw [h.1], h.2.1, h.2.2⟩
      | true =>
        have h := ih (i + cap)
        have hdd : (pending.drop i).drop cap = pending.drop (i + cap) :=
          List.drop_drop cap i pending
        simp only [if_pos, ite_true]
        rw [hdd]
        exact ⟨by rw [h.1], h.2.1, h.2.2⟩

/-- The allocation loop of `add_words` realises the remaining-list phrasing
of its policy on every input. -/
theorem addWordsAlloc_eq_amended {α : Type} (cap : Nat) (occs : List Nat)
    (pending : List α) :
    addWordsAlloc cap occs pending = allocate_amended cap occs pending := by
  obtain ⟨h1, h2, h3⟩ := fillEmptyLevels_eq_R cap pending occs 0
  rw [List.drop_zero] at h1 h2 h3
  simp only [addWordsAlloc, allocate_amended]
  rw [h1, h3]
  have hlt : decide ((fillEmptyLevels cap pending occs 0).2.1 < pending.length)
      = !((fillEmptyLevelsR cap occs pending).2.1).isEmpty := by
    rw [← h2, drop_isEmpty_decide, Bool.not_not]
  rw [hlt]
  have hdropn : ∀ n : Nat,
      pending.drop ((fillEmptyLevels cap pending occs 0).2.1 + n)
        = ((fillEmptyLevelsR cap occs pending).2.1).drop n := by
    intro n
    rw [← h2, List.drop_drop]
  rw [hdropn, h2]

/-- C2 amended: for a non-empty pending list and a positive group capacity
(as configured), when at least one level exists `add_words` realises
exactly the amended policy — fill only the empty existing levels, in
order, with one capacity-sized slice each; then top up the last existing
level when it is below capacity; put everything left into new
capacity-sized levels — and when the course has zero levels it raises the
level-wait `TimeoutException` and allocates nothing. -/
theorem allocator_policy_amended {α : Type} (cap : Nat) (occs : List Nat)
    (pending : List α) (hcap : 0 < cap) (hpend : pending ≠ []) :
    (occs ≠ [] →
      add_words cap occs pending = .ok (allocate_amended cap occs pending)) ∧
    (occs = [] → add_words cap occs pending = .error levelWaitTimeout) := by
  have hpe : pending.isEmpty = false := by
    cases hb : pending.isEmpty with
    | false => rfl
    | true => exact absurd (List.isEmpty_iff.mp hb) hpend
  constructor
  · intro hocc
    have hoe : occs.isEmpty = false := by
      cases hb : occs.isEmpty with
      | false => rfl
      | true => exact absurd (List.isEmpty_iff.mp hb) hocc
    simp only [add_words, hpe, hoe, Bool.false_eq_true, if_false]
    exact congrArg Except.ok (addWordsAlloc_eq_amended cap occs pending)
  · intro hocc
    subst hocc
    simp only [add_words, hpe, Bool.false_eq_true, if_false, List.isEmpty_nil, if_true]

/-- C2 amended witness: the amended policy evaluated at capacity 3, levels
of occupancy 0 and 2, ten pending records; and the zero-level timeout at
the same capacity and pending list. -/
theorem allocator_policy_amended_witness :
    add_words 3 [0, 2] (List.range 10) = .ok (allocate_amended 3 [0, 2] (List.range 10)) ∧
    add_words 3 [] (List.range 10) = .error levelWaitTimeout :=
  ⟨(allocator_policy_amended 3 [0, 2] (List.range 10) (by decide) (by decide)).1
      (by decide),
   (allocator_policy_amended 3 [] (List.range 10) (by decide) (by decide)).2 rfl⟩

/-- Membership in the first-kept deduplication: an element survives iff it
occurs in the list and was not already seen. -/
theorem mem_dedupKeepFirstAux [DecidableEq α] (seen l : List α) (a : α) :
    a ∈ dedupKeepFirstAux seen l ↔ a ∈ l ∧ a ∉ seen := by
  induction l generalizing seen with
  | nil => simp [dedupKeepFirstAux]
  | cons b bs ih =>
    simp only [dedupKeepFirstAux]
    by_cases hb : b ∈ seen
    · rw [if_pos hb, ih]
      constructor
      · exact fun ⟨h1, h2⟩ => ⟨List.mem_cons_of_mem _ h1, h2⟩
      · rintro ⟨h1, h2⟩
        rcases List.mem_cons.mp h1 with h | h
        · exact absurd (h ▸ hb) h2
        · exact ⟨h, h2⟩
    · rw [if_neg hb]
      constructor
      · intro h
        rcases List.mem_cons.mp h with h1 | h1
        · exact ⟨by rw [h1]; exact List.mem_cons_self b bs, by rw [h1]; exact hb⟩
        · have h2 := (ih (b :: seen)).mp h1
          exact ⟨List.mem_cons_of_mem _ h2.1, fun hs => h2.2 (List.mem_cons_of_mem _ hs)⟩
      · rintro ⟨h1, h2⟩
        rcases List.mem_cons.mp h1 with h3 | h3
        · exact List.mem_cons.mpr (Or.inl h3)
        · by_cases hab : a = b
          · exact List.mem_cons.mpr (Or.inl hab)
          · refine List.mem_cons.mpr (Or.inr ((ih (b :: seen)).mpr ⟨h3, ?_⟩))
            intro hc
            rcases List.mem_cons.mp hc with h4 | h4
            · exact hab h4
            · exact h2 h4

/-- The first-kept deduplication yields a list without duplicates. -/
theorem nodup_dedupKeepFirstAux [DecidableEq α] (seen l : List α) :
    (dedupKeepFirstAux seen l).Nodup := by
  induction l generalizing seen with
  | nil => simp [dedupKeepFirstAux]
  | cons b bs ih =>
    simp only [dedupKeepFirstAux]
    by_cases hb : b ∈ seen
    · rw [if_pos hb]; exact ih seen
    · rw [if_neg hb]
      refine List.nodup_cons.mpr ⟨?_, ih _⟩
      intro hc
      exact ((mem_dedupKeepFirstAux _ _ _).mp hc).2 (List.mem_cons_self b seen)

/-- Filtering a duplicate-free list for one value yields that value at most
once. -/
theorem filter_beq_of_nodup [BEq α] [LawfulBEq α] (l : List α) (hl : l.Nodup) (k : α) :
    l.filter (fun x => x == k) = if k ∈ l then [k] else [] := by
  induction l with
  | nil => simp
  | cons a as ih =>
    have hpair := List.nodup_cons.mp hl
    by_cases hak : a = k
    · subst hak
      have hnil : as.filter (fun x => x == a) = [] := by
        refine List.filter_eq_nil_iff.mpr ?_
        intro x hx hbx
        exact hpair.1 ((eq_of_beq hbx) ▸ hx)
      have h1 : (a :: as).filter (fun x => x == a) = a :: as.filter (fun x => x == a) := by
        simp [List.filter_cons]
      rw [h1, hnil, if_pos (List.mem_cons_self a as)]
    · have hba : (a == k) = false := beq_eq_false_iff_ne.mpr hak
      have h1 : (a :: as).filter (fun x => x == k) = as.filter (fun x => x == k) := by
        simp [List.filter_cons, hba]
      rw [h1, ih hpair.2]
      by_cases hkas : k ∈ as
      · rw [if_pos hkas, if_pos (List.mem_cons_of_mem _ hkas)]
      · rw [if_neg hkas,
          if_neg (fun hc => (List.mem_cons.mp hc).elim (fun h => hak h.symm) hkas)]

/-- Flat-mapping each element to a conditional singleton is a filter. -/
theorem flatMap_singleton_filter (l : List α) (p : α → Bool) :
    (l.flatMap (fun a => if p a then [a] else [])) = l.filter p := by
  induction l with
  | nil => rfl
  | cons a as ih =>
    cases hp : p a <;> simp [List.flatMap_cons, List.filter_cons, hp, ih]

/-- A row's key tuple occurs among the deduplicated key tuples of `B` iff
the row has a key match in `B`. -/
theorem mem_dedup_keys_iff (A B : DF) (keys : List String) (ra : List Cell) :
    (keyTuple A.cols keys ra ∈
      dedupKeepFirst (B.rows.map (fun rb => keyTuple B.cols keys rb))) ↔
    hasKeyMatch A B keys ra = true := by
  rw [dedupKeepFirst, mem_dedupKeepFirstAux]
  constructor
  · rintro ⟨h1, _⟩
    obtain ⟨rb, hrb, hfb⟩ := List.mem_map.mp h1
    rw [hasKeyMatch, List.any_eq_true]
    exact ⟨rb, hrb, beq_iff_eq.mpr hfb⟩
  · intro h
    rw [hasKeyMatch, List.any_eq_true] at h
    obtain ⟨rb, hrb, hbeq⟩ := h
    exact ⟨List.mem_map.mpr ⟨rb, hrb, eq_of_beq hbeq⟩, List.not_mem_nil _⟩

/-- The rows of `semi_join A B keys` are exactly the rows of `A` with a key
match in `B`, in `A`'s order and with `A`'s multiplicities (the right side
is deduplicated before the merge, so no row is duplicated). -/
theorem semi_join_rows (A B : DF) (keys : List String) :
    (semi_join A B keys).rows = A.rows.filter (fun ra => hasKeyMatch A B keys ra) := by
  have hnodup : (dedupKeepFirst (B.rows.map (fun rb => keyTuple B.cols keys rb))).Nodup := by
    rw [dedupKeepFirst]
    exact nodup_dedupKeepFirstAux _ _
  have hstep : ∀ ra : List Cell,
      ((dedupKeepFirst (B.rows.map (fun rb => keyTuple B.cols keys rb))).filter
        (fun kb => kb == keyTuple A.cols keys ra)).map (fun _ => ra)
      = if hasKeyMatch A B keys ra then [ra] else [] := by
    intro ra
    rw [filter_beq_of_nodup _ hnodup]
    by_cases hm : keyTuple A.cols keys ra ∈
        dedupKeepFirst (B.rows.map (fun rb => keyTuple B.cols keys rb))
    · rw [if_pos hm, if_pos ((mem_dedup_keys_iff A B keys ra).mp hm)]
      rfl
    · rw [if_neg hm, if_neg ?_]
      · rfl
      · intro hc
        exact hm ((mem_dedup_keys_iff A B keys ra).mpr hc)
  suffices hgen : ∀ l : List (List Cell),
      (l.flatMap (fun ra =>
        ((dedupKeepFirst (B.rows.map (fun rb => keyTuple B.cols keys rb))).filter
          (fun kb => kb == keyTuple A.cols keys ra)).map (fun _ => ra)))
      = l.filter (fun ra => hasKeyMatch A B keys ra) by
    simpa only [semi_join] using hgen A.rows
  intro l
  induction l with
  | nil => rfl
  | cons a as ih =>
    rw [List.flatMap_cons, hstep a, ih, List.filter_cons]
    cases hm : hasKeyMatch A B keys a <;> simp [hm]

/-- When every column of `B` also belongs to `A`, the anti-join carries no
extra `B`-only columns: its rows are exactly the rows of `A` without a key
match, unchanged. -/
theorem anti_join_rows_of_subset (A B : DF) (keys : List String)
    (hB : ∀ c ∈ B.cols, c ∈ A.cols) :
    (anti_join A B keys).cols = A.cols ∧
    (anti_join A B keys).rows = A.rows.filter (fun ra => !(hasKeyMatch A B keys ra)) := by
  have hbOnly : B.cols.filter
      (fun c => !(keys.contains c) && !(A.cols.contains c)) = [] := by
    refine List.filter_eq_nil_iff.mpr ?_
    intro c hc
    simp [hB c hc]
  constructor
  · simp only [anti_join]
    rw [hbOnly, List.append_nil]
  · simp only [anti_join]
    rw [hbOnly]
    simp

/-- Counting occurrences: a filter and its complementary filter split the
occurrences of every row. -/
theorem count_filter_add_count_filter_not [BEq α]
    (l : List α) (p : α → Bool) (r : α) :
    (l.filter p).count r + (l.filter (fun x => !(p x))).count r = l.count r := by
  induction l with
  | nil => simp
  | cons a as ih =>
    cases hp : p a with
    | true =>
      have h1 : (a :: as).filter p = a :: as.filter p := by
        simp [List.filter_cons, hp]
      have h2 : (a :: as).filter (fun x => !(p x)) = as.filter (fun x => !(p x)) := by
        simp [List.filter_cons, hp]
      rw [h1, h2, List.count_cons, List.count_cons]
      by_cases har : (a == r) = true <;> simp [har] <;> omega
    | false =>
      have h1 : (a :: as).filter p = as.filter p := by
        simp [List.filter_cons, hp]
      have h2 : (a :: as).filter (fun x => !(p x)) = a :: as.filter (fun x => !(p x)) := by
        simp [List.filter_cons, hp]
      rw [h1, h2, List.count_cons, List.count_cons]
      by_cases har : (a == r) = true <;> simp [har] <;> omega

/-- C4 amended: provided every column of `B` also appears in `A` (so that
the left merge of `anti_join` introduces no extra `B`-only columns), the
semi-join and anti-join of `A` against `B` form a row-disjoint partition of
`A`: both keep `A`'s columns, their rows are the two complementary filters
of `A`'s rows in `A`'s order, and every row of `A` is accounted for with
its exact multiplicity. -/
theorem semi_anti_partition_amended (A B : DF) (keys : List String)
    (hB : ∀ c ∈ B.cols, c ∈ A.cols) :
    (semi_join A B keys).cols = A.cols ∧
    (anti_join A B keys).cols = A.cols ∧
    (semi_join A B keys).rows = A.rows.filter (fun r => hasKeyMatch A B keys r) ∧
    (anti_join A B keys).rows = A.rows.filter (fun r => !(hasKeyMatch A B keys r)) ∧
    (∀ r, (semi_join A B keys).rows.count r + (anti_join A B keys).rows.count r
        = A.rows.count r) := by
  obtain ⟨hc, hr⟩ := anti_join_rows_of_subset A B keys hB
  refine ⟨rfl, hc, semi_join_rows A B keys, hr, ?_⟩
  intro r
  rw [semi_join_rows A B keys, hr]
  exact count_filter_add_count_filter_not _ _ _

/-- C4 amended witness: a two-row frame split against a one-key frame whose
columns all occur in the left frame. -/
theorem semi_anti_partition_amended_witness :
    (semi_join ⟨["id", "name"], [[some "1", some "A"], [some "2", some "B"]]⟩
        ⟨["id"], [[some "2"]]⟩ ["id"]).cols = ["id", "name"] ∧
    (anti_join ⟨["id", "name"], [[some "1", some "A"], [some "2", some "B"]]⟩
        ⟨["id"], [[some "2"]]⟩ ["id"]).cols = ["id", "name"] ∧
    (semi_join ⟨["id", "name"], [[some "1", some "A"], [some "2", some "B"]]⟩
        ⟨["id"], [[some "2"]]⟩ ["id"]).rows =
      (([[some "1", some "A"], [some "2", some "B"]] : List (List Cell)).filter
        (fun r => hasKeyMatch ⟨["id", "name"], [[some "1", some "A"], [some "2", some "B"]]⟩
          ⟨["id"], [[some "2"]]⟩ ["id"] r)) ∧
    (anti_join ⟨["id", "name"], [[some "1", some "A"], [some "2", some "B"]]⟩
        ⟨["id"], [[some "2"]]⟩ ["id"]).rows =
      (([[some "1", some "A"], [some "2", some "B"]] : List (List Cell)).filter
        (fun r => !(hasKeyMatch ⟨["id", "name"], [[some "1", some "A"], [some "2", some "B"]]⟩
          ⟨["id"], [[some "2"]]⟩ ["id"] r))) ∧
    (∀ r, (semi_join ⟨["id", "name"], [[some "1", some "A"], [some "2", some "B"]]⟩
        ⟨["id"], [[some "2"]]⟩ ["id"]).rows.count r +
      (anti_join ⟨["id", "name"], [[some "1", some "A"], [some "2", some "B"]]⟩
        ⟨["id"], [[some "2"]]⟩ ["id"]).rows.count r =
      ([[some "1", some "A"], [some "2", some "B"]] : List (List Cell)).count r) :=
  semi_anti_partition_amended
    ⟨["id", "name"], [[some "1", some "A"], [some "2", some "B"]]⟩
    ⟨["id"], [[some "2"]]⟩ ["id"] (by decide)

/-- C4 counterexample: when `B` has a column absent from `A` (here
`extra`), the anti-join result keeps that column with `NaN` cells, so the
union of semi-join and anti-join does not reconstruct `A` exactly: the
row list differs from `A`'s rows and the columns differ from `A`'s
columns. -/
theorem semi_anti_partition_cex :
    (semi_join ⟨["id"], [[some "1"]]⟩ ⟨["id", "extra"], [[some "2", some "x"]]⟩
        ["id"]).rows ++
      (anti_join ⟨["id"], [[some "1"]]⟩ ⟨["id", "extra"], [[some "2", some "x"]]⟩
        ["id"]).rows ≠ [[some "1"]] ∧
    (anti_join ⟨["id"], [[some "1"]]⟩ ⟨["id", "extra"], [[some "2", some "x"]]⟩
        ["id"]).cols ≠ ["id"] := by
  decide

/-- Positional lookup through a freshly selected column list recovers the
selected value: for `c ∈ cs`, looking `c` up in the row `cs.map f` yields
`f c`. -/
theorem cellAt_map_self (cs : List String) (f : String → Cell) (c : String) (hc : c ∈ cs) :
    cellAt cs (cs.map f) c = f c := by
  induction cs with
  | nil => cases hc
  | cons a as ih =>
    by_cases hac : a = c
    · subst hac
      simp [cellAt, List.indexOf_cons]
    · have hb : (a == c) = false := beq_eq_false_iff_ne.mpr hac
      have hcas : c ∈ as := by
        rcases List.mem_cons.mp hc with h | h
        · exact absurd h.symm hac
        · exact h
      rw [cellAt, List.map_cons, List.indexOf_cons, hb]
      show List.getD (f a :: as.map f) (as.indexOf c + 1) none = f c
      rw [List.getD_cons_succ]
      exact ih hcas

/-- A row produced by column selection is reproduced by re-selecting the
same columns from it. -/
theorem map_cellAt_map (cs : List String) (f : String → Cell) :
    cs.map (fun c => cellAt cs (cs.map f) c) = cs.map f :=
  List.map_congr_left (fun c hc => cellAt_map_self cs f c hc)

/-- Shape of a successful column selection: the requested columns, and each
row re-projected through them. -/
theorem selectCols_ok (df : DF) (cs : List String) (u : DF)
    (h : selectCols df cs = .ok u) :
    u.cols = cs ∧ u.rows = df.rows.map (fun r => cs.map (fun c => cellAt df.cols r c)) := by
  unfold selectCols at h
  split at h
  · cases h
    exact ⟨rfl, rfl⟩
  · cases h

/-- Validation is idempotent: a frame that came out of `validate_input`
passes through it unchanged. -/
theorem validate_input_idem (df v : DF)
    (h : validate_input (.frame df) = .ok v) :
    validate_input (.frame v) = .ok v := by
  simp only [validate_input] at h ⊢
  cases hsel : selectCols df COL_LIST with
  | error e => rw [hsel] at h; cases h
  | ok u =>
    rw [hsel] at h
    obtain ⟨hucols, hurows⟩ := selectCols_ok df COL_LIST u hsel
    have hv : v = dropna u NOT_NULL_COL_LIST := (Except.ok.inj h).symm
    have hvcols : v.cols = COL_LIST := by
      rw [hv]
      simp only [dropna]
      exact hucols
    have hvrows_shape : ∀ r ∈ v.rows, COL_LIST.map (fun c => cellAt COL_LIST r c) = r := by
      intro r hr
      have hru : r ∈ u.rows := by
        rw [hv] at hr
        simp only [dropna] at hr
        exact (List.mem_filter.mp hr).1
      rw [hurows] at hru
      obtain ⟨r0, _, hr0⟩ := List.mem_map.mp hru
      rw [← hr0]
      exact map_cellAt_map COL_LIST (fun c => cellAt df.cols r0 c)
    have hselv : selectCols v COL_LIST = .ok v := by
      unfold selectCols
      have hcond : (COL_LIST.all fun c => v.cols.contains c) = true := by
        rw [hvcols]
        decide
      rw [if_pos hcond]
      have hrows : v.rows.map (fun r => COL_LIST.map (fun c => cellAt v.cols r c)) = v.rows := by
        simp only [hvcols]
        rw [List.map_congr_left hvrows_shape, List.map_id']
      rw [hrows, ← hvcols]
    have hdrop : dropna v NOT_NULL_COL_LIST = v := by
      rw [hv]
      simp only [dropna]
      rw [List.filter_filter]
      exact congrArg _ (List.filter_congr (fun r _ => Bool.and_self _))
    rw [hselv]
    show Except.ok (dropna v NOT_NULL_COL_LIST) = .ok v
    rw [hdrop]

/-- Selecting the ledger column order from the four-column duplicate frame
always fails: `error` is not among its columns, whatever the rows are. -/
theorem selectCols_dupLedger (rows : List (List Cell)) :
    selectCols ⟨dupLedgerCols, rows⟩ COL_ORDER_LIST = .error (.keyError ["error"]) := rfl

/-- A successful duplicate-handling core run implies there were no
duplicates at all: the ledger-reshaping step fails otherwise. -/
theorem handleDupCore_ok (v kept ledger : DF)
    (h : handleDupCore v = .ok (kept, ledger)) :
    (dupDroppedRows v).isEmpty = true ∧
    kept = ⟨v.cols, dupKeptRows v⟩ ∧ ledger = ⟨COL_ORDER_LIST, []⟩ := by
  simp only [handleDupCore] at h
  by_cases hd : (dupDroppedRows v).isEmpty = true
  · rw [if_pos hd] at h
    have hp := Except.ok.inj h
    exact ⟨hd, (congrArg Prod.fst hp).symm, (congrArg Prod.snd hp).symm⟩
  · rw [if_neg hd, selectCols_dupLedger] at h
    cases h

/-- With no duplicates, the kept rows are all the rows. -/
theorem dupKeptRows_of_no_dropped (v : DF)
    (h : (dupDroppedRows v).isEmpty = true) :
    dupKeptRows v = v.rows := by
  have hids : dupDroppedIds v = [] := by
    rw [dupDroppedIds, List.isEmpty_iff.mp h]
    rfl
  rw [dupKeptRows]
  simp [hids]

/-- With no duplicates, the duplicate-handling core succeeds and returns
the frame untouched with an empty, correctly-shaped ledger. -/
theorem handleDupCore_of_no_dropped (v : DF)
    (h : (dupDroppedRows v).isEmpty = true) :
    handleDupCore v = .ok (⟨v.cols, v.rows⟩, ⟨COL_ORDER_LIST, []⟩) := by
  simp only [handleDupCore]
  rw [if_pos h, dupKeptRows_of_no_dropped v h]

/-- C5: duplicate resolution is idempotent on its success domain — when
`handle_notion_duplicates` returns a kept frame, running it again on that
kept frame returns the very same frame together with an empty,
correctly-shaped ledger. -/
theorem dedup_idempotent (df kept ledger : DF)
    (h : handle_notion_duplicates df = .ok (kept, ledger)) :
    handle_notion_duplicates kept = .ok (kept, ⟨COL_ORDER_LIST, []⟩) := by
  unfold handle_notion_duplicates at h ⊢
  cases hval : validate_input (.frame df) with
  | error e => rw [hval] at h; cases h
  | ok v =>
    rw [hval] at h
    obtain ⟨hd, hkept, _⟩ := handleDupCore_ok v kept ledger h
    have hkv : kept = v := by
      rw [hkept, dupKeptRows_of_no_dropped v hd]
    rw [hkv, validate_input_idem df v hval]
    show handleDupCore v = _
    rw [handleDupCore_of_no_dropped v hd]

/-- C5 witness: a concrete duplicate-free frame is returned unchanged by a
first run, and the theorem applies to give the second, identical run. -/
theorem dedup_idempotent_witness :
    handle_notion_duplicates
      ⟨COL_LIST,
        [[some "chat", some "cat", none, none, none, some "id1", none, none, none, none,
          some "2024-05-01"]]⟩ =
      .ok (⟨COL_LIST,
        [[some "chat", some "cat", none, none, none, some "id1", none, none, none, none,
          some "2024-05-01"]]⟩, ⟨COL_ORDER_LIST, []⟩) :=
  dedup_idempotent
    ⟨COL_LIST,
      [[some "chat", some "cat", none, none, none, some "id1", none, none, none, none,
        some "2024-05-01"]]⟩
    ⟨COL_LIST,
      [[some "chat", some "cat", none, none, none, some "id1", none, none, none, none,
        some "2024-05-01"]]⟩
    ⟨COL_ORDER_LIST, []⟩ (by decide)

end Notion2Memrise
